import Mathlib

/-!
Shallow embedding of `src/PriorityQueue.h`: a priority-queue ADT backed by a
binary min-heap stored in a contiguous vector.  The C++ heap vector becomes a
`List` of `HeapNode`s; every operation of the `MinHeap` class and of the
`PriorityQueue` façade is translated function by function.  The two unbounded
loops of the source (`MinHeap::heapify`'s fixed-point while-loop and
`MinHeap::upHeap`'s climb to the root) are translated with an explicit fuel
parameter; theorems `heapifyLoop_eq_of_fuel` / `heapify_scan_fixed` and
`upHeapLoop_eq_of_fuel` prove that the supplied fuel is always sufficient, so
the embedded functions compute exactly the loops' exit states.

C++ `int` priorities are modelled as `Int` (no arithmetic is performed on
them, only comparisons and the `-1` sentinel, so overflow is not involved);
vector indices become `Nat`.  `E()` (default construction of the element
type) is modelled by `Inhabited.default`.  Reads that are out of range in the
source (undefined behaviour, e.g. `getMin` on an empty heap) are modelled
with a default value; all guarded uses stay in range.
-/

/-- Translation of the C++ `HeapNode` inner class: a stored (priority, value)
pair. -/
structure HeapNode (E : Type) where
  priority : Int
  value : E
deriving DecidableEq, Repr

/-- The backing store of the C++ `MinHeap` class: its `std::vector<HeapNode>`
field, as a list. -/
abbrev MinHeap (E : Type) := List (HeapNode E)

namespace MinHeap

variable {E : Type}

/-- Translation of `MinHeap::swap`: exchange the nodes at two indices.  Both
indices are in range at every call site of the source that is reachable
through the guarded façade; out-of-range calls leave the list unchanged. -/
def swap (h : MinHeap E) (indexOne indexTwo : Nat) : MinHeap E :=
  match h[indexOne]?, h[indexTwo]? with
  | some x, some y => (h.set indexOne y).set indexTwo x
  | _, _ => h

/-- Translation of `MinHeap::getParent`.  The C++ branches on parity; for
`index = 0` the C++ expression `(0 - 1) / 2` is `0` (truncating division of
`-1`), and `Nat` subtraction/division gives the same value. -/
def getParent (index : Nat) : Nat :=
  if index % 2 == 1 then index / 2 else (index - 1) / 2

/-- Loop of `MinHeap::findFirst`: scan positions `i, i+1, ...` for the first
node whose value equals `element`; `-1` if the scan runs off the end. -/
def findFirstLoop [DecidableEq E] (element : E) : MinHeap E → Nat → Int
  | [], _ => -1
  | nd :: rest, i => if nd.value = element then (i : Int) else findFirstLoop element rest (i + 1)

/-- Translation of `MinHeap::findFirst`: index of the first node holding
`element`, or the sentinel `-1`. -/
def findFirst [DecidableEq E] (h : MinHeap E) (element : E) : Int :=
  findFirstLoop element h 0

/-- Translation of `MinHeap::getPriority(index)` (also used to read
priorities inside `heapify`/`upHeap`); out-of-range reads, which never occur
at reachable call sites, give `0`. -/
def getPriority (h : MinHeap E) (index : Nat) : Int :=
  match h[index]? with
  | some nd => nd.priority
  | none => 0

/-- Translation of `MinHeap::getValue(index)`; the source's out-of-range read
(undefined behaviour, never reachable) is modelled by `default`. -/
def getValue [Inhabited E] (h : MinHeap E) (index : Nat) : E :=
  match h[index]? with
  | some nd => nd.value
  | none => default

/-- One full `for (int i = heap.size()/2; i > 0; i--)` scan of
`MinHeap::heapify`, processing `index = i - 1`.  The Boolean accumulates
whether any swap happened (the negation of the source's `solved` flag).
Note the source compares `heap[index]` with `heap[index*2]` and
`heap[index*2+1]` — the 1-based child formula applied to 0-based indices. -/
def heapifyScan : Nat → MinHeap E → Bool → MinHeap E × Bool
  | 0, h, swapped => (h, swapped)
  | index + 1, h, swapped =>
    if h.getPriority index > h.getPriority (index * 2) then
      heapifyScan index (h.swap index (index * 2)) true
    else if h.getPriority index > h.getPriority (index * 2 + 1) then
      heapifyScan index (h.swap index (index * 2 + 1)) true
    else
      heapifyScan index h swapped

/-- Sum of the absolute values of all stored priorities.  Used only to bound
the fuel of the embedded `heapify` while-loop (it is invariant under the
swaps the loop performs). -/
def offsetSum : MinHeap E → Nat
  | [] => 0
  | nd :: t => nd.priority.natAbs + offsetSum t

/-- Recursion underlying `weightedScore`: the node at the head gets weight
`w`, the next `w - 1`, and so on. -/
def weightedScoreAux (o : Nat) : MinHeap E → Nat → Nat
  | [], _ => 0
  | nd :: t, w => w * (nd.priority + (o : Int)).toNat + weightedScoreAux o t (w - 1)

/-- Position-weighted score of the heap after shifting every priority up by
`o`: the shifted priority at position `i` is weighted by `length - i`.  Every
swap performed by `heapify` moves the smaller priority to the smaller index,
so this quantity strictly decreases at each swap; it therefore bounds the
number of iterations of the `heapify` while-loop. -/
def weightedScore (o : Nat) (h : MinHeap E) : Nat :=
  weightedScoreAux o h h.length

/-- Termination measure for the `heapify` while-loop. -/
def heapMeasure (h : MinHeap E) : Nat :=
  weightedScore (offsetSum h) h

/-- The `while (!solved)` loop of `MinHeap::heapify`, with fuel.  Theorem
`heapifyLoop_eq_of_fuel` shows the fuel used by `heapify` below never runs
out, so this is exactly the source loop. -/
def heapifyLoop : Nat → MinHeap E → MinHeap E
  | 0, h => h
  | fuel + 1, h =>
    if (heapifyScan (h.length / 2) h false).2 then
      heapifyLoop fuel (heapifyScan (h.length / 2) h false).1
    else
      (heapifyScan (h.length / 2) h false).1

/-- Translation of `MinHeap::heapify`: repeat full scans until a scan
performs no swap. -/
def heapify (h : MinHeap E) : MinHeap E :=
  heapifyLoop (heapMeasure h + 1) h

/-- The while-loop of `MinHeap::upHeap`, with fuel.  The climbing index
strictly decreases, so `h.length` fuel always suffices
(`upHeapLoop_eq_of_fuel`). -/
def upHeapLoop : Nat → MinHeap E → Nat → MinHeap E
  | 0, h, _ => h
  | fuel + 1, h, i =>
    if getParent i ≠ i ∧ h.getPriority i < h.getPriority (getParent i) then
      upHeapLoop fuel (h.swap i (getParent i)) (getParent i)
    else h

/-- Translation of `MinHeap::upHeap`: sift the last node toward the root
while it is strictly smaller than its parent. -/
def upHeap (h : MinHeap E) : MinHeap E :=
  upHeapLoop h.length h (h.length - 1)

/-- Translation of `MinHeap::getSize`. -/
def getSize (h : MinHeap E) : Nat := h.length

/-- Translation of `MinHeap::getMin`: the value of the root node.  On an
empty heap the source reads out of range (undefined behaviour); modelled by
`default`. -/
def getMin [Inhabited E] (h : MinHeap E) : E :=
  match h[0]? with
  | some nd => nd.value
  | none => default

/-- The write `heap[nodeIndex].setPriority(newPriority)` of
`MinHeap::changePriority` (`HeapNode::setPriority` rewrites the priority
field in place, keeping the value). -/
def setPriorityAt (h : MinHeap E) (i : Nat) (newPriority : Int) : MinHeap E :=
  match h[i]? with
  | some nd => h.set i { nd with priority := newPriority }
  | none => h

/-- Translation of `MinHeap::changePriority`: find the first node holding
`element`; if found, overwrite its priority (no sign check) and re-heapify. -/
def changePriority [DecidableEq E] (h : MinHeap E) (element : E) (newPriority : Int) :
    MinHeap E :=
  if h.findFirst element ≠ -1 then
    heapify (h.setPriorityAt (h.findFirst element).toNat newPriority)
  else h

/-- Translation of `MinHeap::removeFront`: swap root and last node, pop the
last node, re-heapify.  (Only called through the façade's emptiness guard.) -/
def removeFront (h : MinHeap E) : MinHeap E :=
  heapify ((h.swap 0 (h.length - 1)).dropLast)

/-- Translation of `MinHeap::insert`: silently drop negative priorities,
otherwise append at the end and sift up. -/
def insert (h : MinHeap E) (priority : Int) (element : E) : MinHeap E :=
  if priority ≥ 0 then upHeap (h ++ [{ priority := priority, value := element }]) else h

/-- Translation of `MinHeap::insertAll`: append every pair in order (no
priority check), then one full re-heapify. -/
def insertAll (h : MinHeap E) (newValues : List (Int × E)) : MinHeap E :=
  heapify (h ++ newValues.map fun pv => { priority := pv.1, value := pv.2 })

end MinHeap

/-- Translation of the C++ `PriorityQueue<E>` class: a façade owning one
`MinHeap`. -/
structure PriorityQueue (E : Type) where
  minHeap : MinHeap E
deriving DecidableEq, Repr

namespace PriorityQueue

variable {E : Type}

/-- Translation of the `PriorityQueue` constructor: an empty heap. -/
def emptyQueue : PriorityQueue E := ⟨[]⟩

/-- Translation of `PriorityQueue::insert`. -/
def insert [DecidableEq E] (q : PriorityQueue E) (priority : Int) (element : E) :
    PriorityQueue E :=
  ⟨q.minHeap.insert priority element⟩

/-- Translation of `PriorityQueue::insert_all`. -/
def insert_all (q : PriorityQueue E) (new_elements : List (Int × E)) : PriorityQueue E :=
  ⟨q.minHeap.insertAll new_elements⟩

/-- Translation of `PriorityQueue::size`. -/
def size (q : PriorityQueue E) : Nat := q.minHeap.getSize

/-- Translation of `PriorityQueue::empty`. -/
def empty (q : PriorityQueue E) : Bool := q.minHeap.getSize == 0

/-- Translation of `PriorityQueue::remove_front`.  The C++ member function
mutates the queue and returns the removed value; the embedding returns the
(value, new state) pair.  On an empty queue it returns `E()` (`default`) and
leaves the state untouched. -/
def remove_front [Inhabited E] (q : PriorityQueue E) : E × PriorityQueue E :=
  if !q.empty then
    (q.minHeap.getMin, ⟨q.minHeap.removeFront⟩)
  else
    (default, q)

/-- Translation of `PriorityQueue::peek` (unguarded in the source). -/
def peek [Inhabited E] (q : PriorityQueue E) : E :=
  q.minHeap.getMin

/-- Translation of `PriorityQueue::get_all_elements`: the loop pushes
`getValue(i)` for `i = 0 .. size-1`, i.e. the values in storage order. -/
def get_all_elements (q : PriorityQueue E) : List E :=
  q.minHeap.map HeapNode.value

/-- Translation of `PriorityQueue::contains`: linear scan returning on the
first match. -/
def contains [DecidableEq E] (q : PriorityQueue E) (element : E) : Bool :=
  q.minHeap.any fun nd => decide (nd.value = element)

/-- The loop of `PriorityQueue::get_priority` with its `lowest` accumulator:
on a match, `lowest` is overwritten only when it still equals `-1`; the
`else if (getPriority(i) < lowest)` branch of the source has an empty body
and is dropped by the translation because it assigns nothing. -/
def getPriorityLoop [DecidableEq E] (element : E) : List (HeapNode E) → Int → Int
  | [], lowest => lowest
  | nd :: rest, lowest =>
    if nd.value = element then
      if lowest = -1 then getPriorityLoop element rest nd.priority
      else getPriorityLoop element rest lowest
    else getPriorityLoop element rest lowest

/-- Translation of `PriorityQueue::get_priority`. -/
def get_priority [DecidableEq E] (q : PriorityQueue E) (element : E) : Int :=
  getPriorityLoop element q.minHeap (-1)

/-- Translation of `PriorityQueue::get_all_priorities`. -/
def get_all_priorities (q : PriorityQueue E) : List Int :=
  q.minHeap.map HeapNode.priority

/-- Translation of `PriorityQueue::change_priority`. -/
def change_priority [DecidableEq E] (q : PriorityQueue E) (element : E)
    (new_priority : Int) : PriorityQueue E :=
  ⟨q.minHeap.changePriority element new_priority⟩

/-- Perform `n` successive `remove_front` calls and collect the returned
values in order. -/
def drain [Inhabited E] : Nat → PriorityQueue E → List E
  | 0, _ => []
  | n + 1, q => (q.remove_front).1 :: drain n (q.remove_front).2

end PriorityQueue

/-- Property from the specification: the 0-based min-heap invariant — every
index with a child at `2i+1` has priority `≤` that child's, and `≤` the
child at `2i+2` when it exists. -/
def isMinHeap {E : Type} (h : MinHeap E) : Prop :=
  ∀ i, i < h.length →
    (2 * i + 1 < h.length → h.getPriority i ≤ h.getPriority (2 * i + 1)) ∧
    (2 * i + 2 < h.length → h.getPriority i ≤ h.getPriority (2 * i + 2))

instance {E : Type} (h : MinHeap E) : Decidable (isMinHeap h) := by
  unfold isMinHeap; infer_instance

/-- What `PriorityQueue::get_priority` actually computes (characterisation
proved in `getPriorityLoop_eq_spec`): the priority of the first node that
matches `element` and whose priority is not `-1`; `-1` when there is no such
node. -/
def specGetPriority {E : Type} [DecidableEq E] (h : MinHeap E) (element : E) : Int :=
  match h.find? (fun nd => decide (nd.value = element) && decide (nd.priority ≠ -1)) with
  | some nd => nd.priority
  | none => -1

/-- The claimed first-found semantics of `get_priority`, following the
specification's words: the priority of the node at the smallest index whose
value matches, `-1` when no node matches. -/
def firstFoundPriority {E : Type} [DecidableEq E] (h : MinHeap E) (element : E) : Int :=
  match h.find? (fun nd => decide (nd.value = element)) with
  | some nd => nd.priority
  | none => -1

namespace MinHeap

variable {E : Type}

lemma getPriority_of_getElem? {h : MinHeap E} {i : Nat} {nd : HeapNode E}
    (hi : h[i]? = some nd) : h.getPriority i = nd.priority := by
  simp [getPriority, hi]

lemma getPriority_of_none {h : MinHeap E} {i : Nat} (hi : h[i]? = none) :
    h.getPriority i = 0 := by
  simp [getPriority, hi]

lemma swap_eq_of_getElem? {h : MinHeap E} {a b : Nat} {x y : HeapNode E}
    (ha : h[a]? = some x) (hb : h[b]? = some y) :
    h.swap a b = (h.set a y).set b x := by
  unfold swap
  rw [ha, hb]

lemma swap_eq_of_left_none {h : MinHeap E} {a b : Nat} (ha : h[a]? = none) :
    h.swap a b = h := by
  unfold swap
  rw [ha]

lemma swap_eq_of_right_none {h : MinHeap E} {a b : Nat} (hb : h[b]? = none) :
    h.swap a b = h := by
  unfold swap
  rw [hb]
  cases h[a]? <;> rfl

lemma length_swap (h : MinHeap E) (a b : Nat) : (h.swap a b).length = h.length := by
  cases ha : h[a]? with
  | none => rw [swap_eq_of_left_none ha]
  | some x =>
    cases hb : h[b]? with
    | none => rw [swap_eq_of_right_none hb]
    | some y => rw [swap_eq_of_getElem? ha hb]; simp

lemma set_own {α : Type} : ∀ (l : List α) (i : Nat) (x : α), l[i]? = some x → l.set i x = l
  | [], i, x, hx => by simp at hx
  | a :: t, 0, x, hx => by
    simp only [List.getElem?_cons_zero, Option.some.injEq] at hx
    simp [hx]
  | a :: t, i + 1, x, hx => by
    simp only [List.getElem?_cons_succ] at hx
    simp [set_own t i x hx]

lemma swap_self (h : MinHeap E) (a : Nat) : h.swap a a = h := by
  cases ha : h[a]? with
  | none => exact swap_eq_of_left_none ha
  | some x =>
    rw [swap_eq_of_getElem? ha ha, List.set_set]
    exact set_own h a x ha

lemma getElem?_swap_left (h : MinHeap E) (a b : Nat) (ha : a < h.length) (hb : b < h.length) :
    (h.swap a b)[a]? = h[b]? := by
  rcases eq_or_ne a b with rfl | hab
  · rw [swap_self]
  · have ha' := List.getElem?_eq_getElem ha
    have hb' := List.getElem?_eq_getElem hb
    rw [swap_eq_of_getElem? ha' hb']
    rw [List.getElem?_set_ne (Ne.symm hab), List.getElem?_set_self]
    simp only [List.length_set, hb']
    exact ha

lemma getElem?_swap_right (h : MinHeap E) (a b : Nat) (ha : a < h.length) (hb : b < h.length) :
    (h.swap a b)[b]? = h[a]? := by
  rcases eq_or_ne a b with rfl | hab
  · rw [swap_self]
  · have ha' := List.getElem?_eq_getElem ha
    have hb' := List.getElem?_eq_getElem hb
    rw [swap_eq_of_getElem? ha' hb']
    rw [List.getElem?_set_self]
    simp only [List.length_set, ha']
    simpa using hb

lemma getElem?_swap_other (h : MinHeap E) (a b i : Nat) (hia : i ≠ a) (hib : i ≠ b) :
    (h.swap a b)[i]? = h[i]? := by
  cases ha : h[a]? with
  | none => rw [swap_eq_of_left_none ha]
  | some x =>
    cases hb : h[b]? with
    | none => rw [swap_eq_of_right_none hb]
    | some y =>
      rw [swap_eq_of_getElem? ha hb]
      rw [List.getElem?_set_ne (Ne.symm hib), List.getElem?_set_ne (Ne.symm hia)]

lemma cons_set_perm {α : Type} :
    ∀ (t : List α) (j : Nat) (x y : α), t[j]? = some y → (y :: t.set j x).Perm (x :: t)
  | [], j, x, y, hy => by simp at hy
  | z :: t, 0, x, y, hy => by
    simp only [List.getElem?_cons_zero, Option.some.injEq] at hy
    subst hy
    simpa using List.Perm.swap x z t
  | z :: t, j + 1, x, y, hy => by
    simp only [List.getElem?_cons_succ] at hy
    have h1 : (y :: (z :: t).set (j + 1) x) = y :: z :: t.set j x := by simp
    rw [h1]
    exact ((List.Perm.swap z y (t.set j x)).trans
      ((cons_set_perm t j x y hy).cons z)).trans (List.Perm.swap x z t)

lemma set_set_perm_of_lt {α : Type} :
    ∀ (l : List α) (a b : Nat) (x y : α), a < b → l[a]? = some x → l[b]? = some y →
      ((l.set a y).set b x).Perm l
  | [], _, _, x, _, _, hx, _ => by simp at hx
  | _ :: _, _, 0, _, _, hab, _, _ => absurd hab (by omega)
  | z :: t, 0, b + 1, x, y, _, hx, hy => by
    simp only [List.getElem?_cons_zero, Option.some.injEq] at hx
    simp only [List.getElem?_cons_succ] at hy
    subst hx
    have h1 : ((z :: t).set 0 y).set (b + 1) z = y :: t.set b z := by simp
    rw [h1]
    exact cons_set_perm t b z y hy
  | z :: t, a + 1, b + 1, x, y, hab, hx, hy => by
    simp only [List.getElem?_cons_succ] at hx hy
    have h1 : ((z :: t).set (a + 1) y).set (b + 1) x = z :: (t.set a y).set b x := by simp
    rw [h1]
    exact (set_set_perm_of_lt t a b x y (by omega) hx hy).cons z

lemma swap_perm (h : MinHeap E) (a b : Nat) : (h.swap a b).Perm h := by
  rcases eq_or_ne a b with rfl | hab
  · rw [swap_self]
  cases ha : h[a]? with
  | none => rw [swap_eq_of_left_none ha]
  | some x =>
    cases hb : h[b]? with
    | none => rw [swap_eq_of_right_none hb]
    | some y =>
      rw [swap_eq_of_getElem? ha hb]
      rcases lt_or_gt_of_ne hab with hlt | hgt
      · exact set_set_perm_of_lt h a b x y hlt ha hb
      · rw [List.set_comm _ _ _ hab]
        exact set_set_perm_of_lt h b a y x hgt hb ha

end MinHeap

namespace MinHeap

variable {E : Type}

lemma getParent_zero : getParent 0 = 0 := by decide

lemma getParent_lt (i : Nat) (hi : i ≠ 0) : getParent i < i := by
  unfold getParent
  rcases eq_or_ne (i % 2) 1 with h | h <;> simp [h] <;> omega

lemma length_upHeapLoop : ∀ (fuel : Nat) (h : MinHeap E) (i : Nat),
    (upHeapLoop fuel h i).length = h.length := by
  intro fuel
  induction fuel with
  | zero => intro h i; rfl
  | succ f ih =>
    intro h i
    simp only [upHeapLoop]
    split
    · rw [ih]; exact length_swap h i (getParent i)
    · rfl

lemma upHeapLoop_eq_of_fuel (i : Nat) : ∀ (f₁ f₂ : Nat) (h : MinHeap E),
    i < f₁ → i < f₂ → upHeapLoop f₁ h i = upHeapLoop f₂ h i := by
  induction i using Nat.strong_induction_on with
  | _ i ih =>
    intro f₁ f₂ h h1 h2
    obtain ⟨g₁, rfl⟩ : ∃ g, f₁ = g + 1 := ⟨f₁ - 1, by omega⟩
    obtain ⟨g₂, rfl⟩ : ∃ g, f₂ = g + 1 := ⟨f₂ - 1, by omega⟩
    simp only [upHeapLoop]
    split
    · rename_i hcond
      have hi0 : i ≠ 0 := by
        intro h0
        subst h0
        exact hcond.1 getParent_zero
      have hplt : getParent i < i := getParent_lt i hi0
      exact ih (getParent i) hplt g₁ g₂ _ (by omega) (by omega)
    · rfl

lemma heapifyScan_length : ∀ (k : Nat) (h : MinHeap E) (sw : Bool),
    (heapifyScan k h sw).1.length = h.length := by
  intro k
  induction k with
  | zero => intro h sw; rfl
  | succ k ih =>
    intro h sw
    simp only [heapifyScan]
    split
    · rw [ih]; exact length_swap h k (k * 2)
    · split
      · rw [ih]; exact length_swap h k (k * 2 + 1)
      · exact ih h sw

lemma heapifyScan_perm : ∀ (k : Nat) (h : MinHeap E) (sw : Bool),
    ((heapifyScan k h sw).1).Perm h := by
  intro k
  induction k with
  | zero => intro h sw; exact List.Perm.refl h
  | succ k ih =>
    intro h sw
    simp only [heapifyScan]
    split
    · exact (ih _ true).trans (swap_perm h k (k * 2))
    · split
      · exact (ih _ true).trans (swap_perm h k (k * 2 + 1))
      · exact ih h sw

lemma heapifyScan_sw_true : ∀ (k : Nat) (h : MinHeap E),
    (heapifyScan k h true).2 = true := by
  intro k
  induction k with
  | zero => intro h; rfl
  | succ k ih =>
    intro h
    simp only [heapifyScan]
    split
    · exact ih _
    · split
      · exact ih _
      · exact ih h

lemma heapifyScan_of_not_swapped : ∀ (k : Nat) (h : MinHeap E),
    (heapifyScan k h false).2 = false → (heapifyScan k h false).1 = h := by
  intro k
  induction k with
  | zero => intro h _; rfl
  | succ k ih =>
    intro h
    simp only [heapifyScan]
    split
    · intro hsnd; exact absurd (heapifyScan_sw_true k _) (by rw [hsnd]; simp)
    · split
      · intro hsnd; exact absurd (heapifyScan_sw_true k _) (by rw [hsnd]; simp)
      · exact ih h

lemma length_heapifyLoop : ∀ (fuel : Nat) (h : MinHeap E),
    (heapifyLoop fuel h).length = h.length := by
  intro fuel
  induction fuel with
  | zero => intro h; rfl
  | succ f ih =>
    intro h
    simp only [heapifyLoop]
    split
    · rw [ih]; exact heapifyScan_length _ h false
    · exact heapifyScan_length _ h false

lemma heapifyLoop_perm : ∀ (fuel : Nat) (h : MinHeap E),
    (heapifyLoop fuel h).Perm h := by
  intro fuel
  induction fuel with
  | zero => intro h; exact List.Perm.refl h
  | succ f ih =>
    intro h
    simp only [heapifyLoop]
    split
    · exact (ih _).trans (heapifyScan_perm _ h false)
    · exact heapifyScan_perm _ h false

lemma length_heapify (h : MinHeap E) : (heapify h).length = h.length :=
  length_heapifyLoop _ h

lemma heapify_perm (h : MinHeap E) : (heapify h).Perm h :=
  heapifyLoop_perm _ h

lemma length_setPriorityAt (h : MinHeap E) (i : Nat) (p : Int) :
    (h.setPriorityAt i p).length = h.length := by
  unfold setPriorityAt
  cases h[i]? <;> simp

lemma length_upHeap (h : MinHeap E) : (upHeap h).length = h.length :=
  length_upHeapLoop _ h _

lemma length_removeFront (h : MinHeap E) : (h.removeFront).length = h.length - 1 := by
  unfold removeFront
  rw [length_heapify, List.length_dropLast, length_swap]

lemma length_insert_of_nonneg (h : MinHeap E) (p : Int) (e : E) (hp : 0 ≤ p) :
    (h.insert p e).length = h.length + 1 := by
  unfold insert
  rw [if_pos hp, length_upHeap]
  simp

lemma insert_of_neg (h : MinHeap E) (p : Int) (e : E) (hp : p < 0) :
    h.insert p e = h := by
  unfold insert
  rw [if_neg (by omega)]

lemma length_insertAll (h : MinHeap E) (xs : List (Int × E)) :
    (h.insertAll xs).length = h.length + xs.length := by
  unfold insertAll
  rw [length_heapify]
  simp

lemma length_changePriority [DecidableEq E] (h : MinHeap E) (e : E) (p : Int) :
    (h.changePriority e p).length = h.length := by
  unfold changePriority
  split
  · rw [length_heapify, length_setPriorityAt]
  · rfl

end MinHeap

namespace MinHeap

variable {E : Type}

lemma getPriority_eq_of_getElem?_eq {h₁ h₂ : MinHeap E} {i j : Nat}
    (hij : h₁[i]? = h₂[j]?) : h₁.getPriority i = h₂.getPriority j := by
  unfold getPriority
  rw [hij]

lemma sum_range_add_swap (F G : Nat → Nat) (n a b : Nat) (ha : a < n) (hb : b < n)
    (hab : a ≠ b) (hoff : ∀ i, i < n → i ≠ a → i ≠ b → F i = G i) :
    (∑ i in Finset.range n, F i) + (G a + G b) =
      (∑ i in Finset.range n, G i) + (F a + F b) := by
  have haR : a ∈ Finset.range n := Finset.mem_range.2 ha
  have hbR : b ∈ (Finset.range n).erase a :=
    Finset.mem_erase.2 ⟨Ne.symm hab, Finset.mem_range.2 hb⟩
  have hF : ∑ i in Finset.range n, F i =
      F a + (F b + ∑ i in ((Finset.range n).erase a).erase b, F i) := by
    rw [Finset.add_sum_erase _ F hbR, Finset.add_sum_erase _ F haR]
  have hG : ∑ i in Finset.range n, G i =
      G a + (G b + ∑ i in ((Finset.range n).erase a).erase b, G i) := by
    rw [Finset.add_sum_erase _ G hbR, Finset.add_sum_erase _ G haR]
  have hcong : ∑ i in ((Finset.range n).erase a).erase b, F i =
      ∑ i in ((Finset.range n).erase a).erase b, G i := by
    refine Finset.sum_congr rfl (fun i hi => ?_)
    have hib : i ≠ b := (Finset.mem_erase.1 hi).1
    have hi' := (Finset.mem_erase.1 hi).2
    have hia : i ≠ a := (Finset.mem_erase.1 hi').1
    have hin : i < n := Finset.mem_range.1 (Finset.mem_erase.1 hi').2
    exact hoff i hin hia hib
  omega


lemma offsetSum_eq_sum : ∀ (h : MinHeap E),
    offsetSum h = ∑ i in Finset.range h.length, (h.getPriority i).natAbs
  | [] => by simp [offsetSum]
  | nd :: t => by
    have hcons : ∀ i, getPriority (nd :: t) (i + 1) = getPriority t i :=
      fun i => getPriority_eq_of_getElem?_eq (by simp)
    have h0 : getPriority (nd :: t) 0 = nd.priority :=
      getPriority_of_getElem? (by simp)
    have key : ∑ i in Finset.range (t.length + 1), (getPriority (nd :: t) i).natAbs
        = (∑ i in Finset.range t.length, (getPriority t i).natAbs) + nd.priority.natAbs := by
      rw [Finset.sum_range_succ'
        (fun i => (getPriority (nd :: t) i).natAbs) t.length]
      congr 1
      · exact Finset.sum_congr rfl (fun i _ => by
          show (getPriority (nd :: t) (i + 1)).natAbs = (getPriority t i).natAbs
          rw [hcons i])
      · show (getPriority (nd :: t) 0).natAbs = nd.priority.natAbs
        rw [h0]
    show nd.priority.natAbs + offsetSum t = _
    rw [offsetSum_eq_sum t]
    simp only [List.length_cons]
    omega

lemma weightedScoreAux_eq_sum (o : Nat) : ∀ (h : MinHeap E) (w : Nat),
    weightedScoreAux o h w =
      ∑ i in Finset.range h.length, (w - i) * (h.getPriority i + (o : Int)).toNat
  | [], w => by simp [weightedScoreAux]
  | nd :: t, w => by
    have hcons : ∀ i, getPriority (nd :: t) (i + 1) = getPriority t i :=
      fun i => getPriority_eq_of_getElem?_eq (by simp)
    have h0 : getPriority (nd :: t) 0 = nd.priority :=
      getPriority_of_getElem? (by simp)
    have key : ∑ i in Finset.range (t.length + 1),
          (w - i) * (getPriority (nd :: t) i + (o : Int)).toNat
        = (∑ i in Finset.range t.length, ((w - 1) - i) * (getPriority t i + (o : Int)).toNat)
            + w * (nd.priority + (o : Int)).toNat := by
      rw [Finset.sum_range_succ'
        (fun i => (w - i) * (getPriority (nd :: t) i + (o : Int)).toNat) t.length]
      congr 1
      · exact Finset.sum_congr rfl (fun i _ => by
          show (w - (i + 1)) * (getPriority (nd :: t) (i + 1) + (o : Int)).toNat
            = ((w - 1) - i) * (getPriority t i + (o : Int)).toNat
          rw [hcons i]
          congr 1
          omega)
      · show (w - 0) * (getPriority (nd :: t) 0 + (o : Int)).toNat
          = w * (nd.priority + (o : Int)).toNat
        rw [h0, Nat.sub_zero]
    show w * (nd.priority + (o : Int)).toNat + weightedScoreAux o t (w - 1) = _
    rw [weightedScoreAux_eq_sum o t (w - 1)]
    simp only [List.length_cons]
    omega

lemma weightedScore_eq_sum (o : Nat) (h : MinHeap E) :
    weightedScore o h =
      ∑ i in Finset.range h.length, (h.length - i) * (h.getPriority i + (o : Int)).toNat :=
  weightedScoreAux_eq_sum o h h.length

lemma offsetSum_swap (h : MinHeap E) (a b : Nat) (ha : a < h.length) (hb : b < h.length) :
    offsetSum (h.swap a b) = offsetSum h := by
  rcases eq_or_ne a b with rfl | hab
  · rw [swap_self]
  have hFa : ((h.swap a b).getPriority a).natAbs = (h.getPriority b).natAbs := by
    rw [getPriority_eq_of_getElem?_eq (getElem?_swap_left h a b ha hb)]
  have hFb : ((h.swap a b).getPriority b).natAbs = (h.getPriority a).natAbs := by
    rw [getPriority_eq_of_getElem?_eq (getElem?_swap_right h a b ha hb)]
  have key := sum_range_add_swap (fun i => ((h.swap a b).getPriority i).natAbs)
    (fun i => (h.getPriority i).natAbs) h.length a b ha hb hab (fun i _ hia hib => by
      show ((h.swap a b).getPriority i).natAbs = (h.getPriority i).natAbs
      rw [getPriority_eq_of_getElem?_eq (getElem?_swap_other h a b i hia hib)])
  simp only at key
  rw [offsetSum_eq_sum, offsetSum_eq_sum, length_swap]
  omega

lemma weightedScore_swap_lt (o : Nat) (h : MinHeap E) (a b : Nat)
    (hab : a < b) (hb : b < h.length) (hpr : h.getPriority b < h.getPriority a)
    (hbound : ∀ i, i < h.length → 0 ≤ h.getPriority i + (o : Int)) :
    weightedScore o (h.swap a b) < weightedScore o h := by
  have ha : a < h.length := lt_trans hab hb
  have hFa : ((h.swap a b).getPriority a + (o : Int)).toNat =
      (h.getPriority b + (o : Int)).toNat := by
    rw [getPriority_eq_of_getElem?_eq (getElem?_swap_left h a b ha hb)]
  have hFb : ((h.swap a b).getPriority b + (o : Int)).toNat =
      (h.getPriority a + (o : Int)).toNat := by
    rw [getPriority_eq_of_getElem?_eq (getElem?_swap_right h a b ha hb)]
  have key := sum_range_add_swap
    (fun i => (h.length - i) * ((h.swap a b).getPriority i + (o : Int)).toNat)
    (fun i => (h.length - i) * (h.getPriority i + (o : Int)).toNat)
    h.length a b ha hb (Nat.ne_of_lt hab) (fun i _ hia hib => by
      show (h.length - i) * ((h.swap a b).getPriority i + (o : Int)).toNat =
        (h.length - i) * (h.getPriority i + (o : Int)).toNat
      rw [getPriority_eq_of_getElem?_eq (getElem?_swap_other h a b i hia hib)])
  have hw : h.length - b < h.length - a := by omega
  have hs : (h.getPriority b + (o : Int)).toNat < (h.getPriority a + (o : Int)).toNat := by
    have hob := hbound b hb
    omega
  have hmul := mul_add_mul_lt_mul_add_mul hw hs
  have hsum : (h.length - a) * (h.getPriority b + (o : Int)).toNat +
      (h.length - b) * (h.getPriority a + (o : Int)).toNat <
      (h.length - a) * (h.getPriority a + (o : Int)).toNat +
      (h.length - b) * (h.getPriority b + (o : Int)).toNat := by
    calc (h.length - a) * (h.getPriority b + (o : Int)).toNat +
        (h.length - b) * (h.getPriority a + (o : Int)).toNat
        = (h.length - b) * (h.getPriority a + (o : Int)).toNat +
          (h.length - a) * (h.getPriority b + (o : Int)).toNat := Nat.add_comm _ _
      _ < (h.length - b) * (h.getPriority b + (o : Int)).toNat +
          (h.length - a) * (h.getPriority a + (o : Int)).toNat := hmul
      _ = (h.length - a) * (h.getPriority a + (o : Int)).toNat +
          (h.length - b) * (h.getPriority b + (o : Int)).toNat := Nat.add_comm _ _
  rw [weightedScore_eq_sum, weightedScore_eq_sum, length_swap]
  simp only at key
  rw [hFa, hFb] at key
  omega

lemma bound_swap (o : Nat) (h : MinHeap E) (a b : Nat) (ha : a < h.length)
    (hb : b < h.length)
    (hbound : ∀ i, i < h.length → 0 ≤ h.getPriority i + (o : Int)) :
    ∀ i, i < (h.swap a b).length → 0 ≤ (h.swap a b).getPriority i + (o : Int) := by
  intro i hi
  rw [length_swap] at hi
  rcases eq_or_ne i a with rfl | hia
  · rw [getPriority_eq_of_getElem?_eq (getElem?_swap_left h i b ha hb)]
    exact hbound b hb
  rcases eq_or_ne i b with rfl | hib
  · rw [getPriority_eq_of_getElem?_eq (getElem?_swap_right h a i ha hb)]
    exact hbound a ha
  · rw [getPriority_eq_of_getElem?_eq (getElem?_swap_other h a b i hia hib)]
    exact hbound i hi

lemma getPriority_add_offsetSum_nonneg (h : MinHeap E) :
    ∀ i, i < h.length → 0 ≤ h.getPriority i + (offsetSum h : Int) := by
  intro i hi
  have hsum := offsetSum_eq_sum h
  have hle : (h.getPriority i).natAbs ≤ ∑ j in Finset.range h.length, (h.getPriority j).natAbs :=
    Finset.single_le_sum (f := fun j => (h.getPriority j).natAbs)
      (fun j _ => Nat.zero_le _) (Finset.mem_range.2 hi)
  omega

lemma heapifyScan_score (o : Nat) : ∀ (k : Nat) (h : MinHeap E) (sw : Bool),
    k ≤ h.length / 2 → (∀ i, i < h.length → 0 ≤ h.getPriority i + (o : Int)) →
    weightedScore o (heapifyScan k h sw).1 ≤ weightedScore o h ∧
      ((heapifyScan k h sw).2 = true →
        sw = true ∨ weightedScore o (heapifyScan k h sw).1 < weightedScore o h) := by
  intro k
  induction k with
  | zero => exact fun h sw _ _ => ⟨le_refl _, fun hsw => Or.inl hsw⟩
  | succ k ih =>
    intro h sw hk hbound
    have hlen2 : 2 * k + 2 ≤ h.length := by omega
    simp only [heapifyScan]
    split
    · rename_i hgt
      have hk0 : k ≠ 0 := by
        rintro rfl
        simp at hgt
      have hswlt : weightedScore o (h.swap k (k * 2)) < weightedScore o h :=
        weightedScore_swap_lt o h k (k * 2) (by omega) (by omega) hgt hbound
      obtain ⟨ihle, _⟩ := ih (h.swap k (k * 2)) true
        (by rw [length_swap]; omega)
        (bound_swap o h k (k * 2) (by omega) (by omega) hbound)
      exact ⟨le_of_lt (lt_of_le_of_lt ihle hswlt),
        fun _ => Or.inr (lt_of_le_of_lt ihle hswlt)⟩
    · split
      · rename_i hgt2
        have hswlt : weightedScore o (h.swap k (k * 2 + 1)) < weightedScore o h :=
          weightedScore_swap_lt o h k (k * 2 + 1) (by omega) (by omega) hgt2 hbound
        obtain ⟨ihle, _⟩ := ih (h.swap k (k * 2 + 1)) true
          (by rw [length_swap]; omega)
          (bound_swap o h k (k * 2 + 1) (by omega) (by omega) hbound)
        exact ⟨le_of_lt (lt_of_le_of_lt ihle hswlt),
          fun _ => Or.inr (lt_of_le_of_lt ihle hswlt)⟩
      · exact ih h sw (by omega) hbound

lemma heapifyScan_offsetSum : ∀ (k : Nat) (h : MinHeap E) (sw : Bool),
    k ≤ h.length / 2 → offsetSum (heapifyScan k h sw).1 = offsetSum h := by
  intro k
  induction k with
  | zero => intro h sw _; rfl
  | succ k ih =>
    intro h sw hk
    have hlen2 : 2 * k + 2 ≤ h.length := by omega
    simp only [heapifyScan]
    split
    · rw [ih _ true (by rw [length_swap]; omega)]
      exact offsetSum_swap h k (k * 2) (by omega) (by omega)
    · split
      · rw [ih _ true (by rw [length_swap]; omega)]
        exact offsetSum_swap h k (k * 2 + 1) (by omega) (by omega)
      · exact ih h sw (by omega)

lemma heapMeasure_scan_lt (h : MinHeap E)
    (hs : (heapifyScan (h.length / 2) h false).2 = true) :
    heapMeasure (heapifyScan (h.length / 2) h false).1 < heapMeasure h := by
  obtain ⟨_, hlt⟩ := heapifyScan_score (offsetSum h) (h.length / 2) h false (le_refl _)
    (getPriority_add_offsetSum_nonneg h)
  rcases hlt hs with h1 | h1
  · exact absurd h1 (by simp)
  · unfold heapMeasure
    rw [heapifyScan_offsetSum (h.length / 2) h false (le_refl _)]
    exact h1

end MinHeap

namespace MinHeap

variable {E : Type}

lemma heapify_of_not_swapped {h : MinHeap E}
    (hs : (heapifyScan (h.length / 2) h false).2 = false) : heapify h = h := by
  unfold heapify
  simp only [heapifyLoop]
  rw [if_neg (by simp [hs])]
  exact heapifyScan_of_not_swapped _ h hs

lemma heapifyLoop_eq_of_fuel (h : MinHeap E) : ∀ (f₁ f₂ : Nat),
    heapMeasure h < f₁ → heapMeasure h < f₂ → heapifyLoop f₁ h = heapifyLoop f₂ h := by
  suffices H : ∀ (m : Nat) (h : MinHeap E) (f₁ f₂ : Nat), heapMeasure h ≤ m →
      heapMeasure h < f₁ → heapMeasure h < f₂ → heapifyLoop f₁ h = heapifyLoop f₂ h by
    exact fun f₁ f₂ h1 h2 => H (heapMeasure h) h f₁ f₂ (le_refl _) h1 h2
  intro m
  induction m with
  | zero =>
    intro h f₁ f₂ hm h1 h2
    obtain ⟨g₁, rfl⟩ : ∃ g, f₁ = g + 1 := ⟨f₁ - 1, by omega⟩
    obtain ⟨g₂, rfl⟩ : ∃ g, f₂ = g + 1 := ⟨f₂ - 1, by omega⟩
    simp only [heapifyLoop]
    split
    · rename_i hs
      exact absurd (heapMeasure_scan_lt h hs) (by omega)
    · rfl
  | succ m ihm =>
    intro h f₁ f₂ hm h1 h2
    obtain ⟨g₁, rfl⟩ : ∃ g, f₁ = g + 1 := ⟨f₁ - 1, by omega⟩
    obtain ⟨g₂, rfl⟩ : ∃ g, f₂ = g + 1 := ⟨f₂ - 1, by omega⟩
    simp only [heapifyLoop]
    split
    · rename_i hs
      have hlt := heapMeasure_scan_lt h hs
      exact ihm _ g₁ g₂ (by omega) (by omega) (by omega)
    · rfl

lemma heapify_of_swapped {h : MinHeap E}
    (hs : (heapifyScan (h.length / 2) h false).2 = true) :
    heapify h = heapify ((heapifyScan (h.length / 2) h false).1) := by
  have hlt := heapMeasure_scan_lt h hs
  unfold heapify
  conv_lhs => simp only [heapifyLoop]
  rw [if_pos hs]
  exact heapifyLoop_eq_of_fuel _ _ _ (by omega) (by omega)

/-- Faithfulness of the fuelled `heapify` embedding: at the value `heapify`
returns, a further full scan performs no swap, i.e. the returned state is
exactly the exit state of the source's `while (!solved)` loop. -/
theorem heapify_scan_fixed (h : MinHeap E) :
    (heapifyScan ((heapify h).length / 2) (heapify h) false).2 = false := by
  suffices H : ∀ (m : Nat) (h : MinHeap E), heapMeasure h ≤ m →
      (heapifyScan ((heapify h).length / 2) (heapify h) false).2 = false by
    exact H (heapMeasure h) h (le_refl _)
  intro m
  induction m with
  | zero =>
    intro h hm
    rcases hcase : (heapifyScan (h.length / 2) h false).2 with hfalse | htrue
    · rw [heapify_of_not_swapped hcase]
      exact hcase
    · exact absurd (heapMeasure_scan_lt h hcase) (by omega)
  | succ m ihm =>
    intro h hm
    rcases hcase : (heapifyScan (h.length / 2) h false).2 with hfalse | htrue
    · rw [heapify_of_not_swapped hcase]
      exact hcase
    · have hlt := heapMeasure_scan_lt h hcase
      rw [heapify_of_swapped hcase]
      exact ihm _ (by omega)

end MinHeap

lemma mem_of_getElem?_eq_some {α : Type} {l : List α} {i : Nat} {a : α}
    (h : l[i]? = some a) : a ∈ l := by
  obtain ⟨hlt, he⟩ := List.getElem?_eq_some.1 h
  exact he ▸ List.getElem_mem hlt

lemma mem_set_self {α : Type} (l : List α) (i : Nat) (x : α) (hi : i < l.length) :
    x ∈ l.set i x := by
  refine mem_of_getElem?_eq_some (i := i) ?_
  rw [List.getElem?_set_self]
  simp [hi]

lemma countP_set_of_same {α : Type} (P : α → Bool) :
    ∀ (l : List α) (i : Nat) (x y : α), l[i]? = some y → P y = P x →
      (l.set i x).countP P = l.countP P
  | [], i, x, y, hy, _ => by simp at hy
  | a :: t, 0, x, y, hy, hP => by
    simp only [List.getElem?_cons_zero, Option.some.injEq] at hy
    subst hy
    simp [List.countP_cons, hP]
  | a :: t, i + 1, x, y, hy, hP => by
    simp only [List.getElem?_cons_succ] at hy
    simp [List.countP_cons, countP_set_of_same P t i x y hy hP]

lemma countP_one_all_match {α : Type} (P : α → Bool) :
    ∀ (l : List α) (j : Nat) (x y : α),
      l[j]? = some y → P y = true → P x = true → l.countP P = 1 →
      ∀ m ∈ l.set j x, P m = true → m = x
  | [], j, x, y, hy, _, _, _ => by simp at hy
  | a :: t, 0, x, y, hy, hPy, hPx, hc => by
    simp only [List.getElem?_cons_zero, Option.some.injEq] at hy
    subst hy
    have hct : t.countP P = 0 := by
      simp [List.countP_cons, hPy] at hc
      exact List.countP_eq_zero.2 (fun a ha => by simp [hc a ha])
    intro m hm hPm
    rcases List.mem_cons.1 hm with rfl | hmem
    · rfl
    · exact absurd (List.countP_pos_iff.2 ⟨m, hmem, hPm⟩) (by omega)
  | a :: t, j + 1, x, y, hy, hPy, hPx, hc => by
    simp only [List.getElem?_cons_succ] at hy
    rcases hPa : P a with hf | ht
    · have hct : t.countP P = 1 := by
        simp [List.countP_cons, hPa] at hc
        exact hc
      intro m hm hPm
      rcases List.mem_cons.1 hm with rfl | hmem
      · rw [hPa] at hPm; exact absurd hPm (by simp)
      · exact countP_one_all_match P t j x y hy hPy hPx hct m hmem hPm
    · have hyt : 0 < t.countP P :=
        List.countP_pos_iff.2 ⟨y, mem_of_getElem?_eq_some hy, hPy⟩
      have : t.countP P = 0 := by
        simp [List.countP_cons, hPa] at hc
        exact List.countP_eq_zero.2 (fun a ha => by simp [hc a ha])
      omega

namespace MinHeap

variable {E : Type}

lemma findFirstLoop_spec [DecidableEq E] (element : E) :
    ∀ (h : MinHeap E) (i : Nat),
      (findFirstLoop element h i = -1 ∧ ∀ nd ∈ h, nd.value ≠ element) ∨
      (∃ j, j < h.length ∧ findFirstLoop element h i = ((i + j : Nat) : Int) ∧
        (∃ nd, h[j]? = some nd ∧ nd.value = element) ∧
        ∀ j' nd, j' < j → h[j']? = some nd → nd.value ≠ element)
  | [], i => Or.inl ⟨rfl, by simp⟩
  | nd :: rest, i => by
    by_cases hv : nd.value = element
    · refine Or.inr ⟨0, by simp, ?_, ⟨nd, by simp, hv⟩, ?_⟩
      · simp [findFirstLoop, hv]
      · intro j' nd' hj' _
        omega
    · rcases findFirstLoop_spec element rest (i + 1) with ⟨heq, hall⟩ | ⟨j, hj, heq, hex, hmin⟩
      · refine Or.inl ⟨?_, ?_⟩
        · simp only [findFirstLoop, if_neg hv]
          exact heq
        · intro nd' hnd'
          rcases List.mem_cons.1 hnd' with rfl | hmem
          · exact hv
          · exact hall nd' hmem
      · refine Or.inr ⟨j + 1, by simp; omega, ?_, ?_, ?_⟩
        · simp only [findFirstLoop, if_neg hv]
          rw [heq]
          omega
        · simpa using hex
        · intro j' nd' hj' hj'e
          match j', hj'e with
          | 0, hj'e =>
            simp only [List.getElem?_cons_zero, Option.some.injEq] at hj'e
            exact hj'e ▸ hv
          | k + 1, hj'e =>
            simp only [List.getElem?_cons_succ] at hj'e
            exact hmin k nd' (by omega) hj'e

end MinHeap

namespace PriorityQueue

variable {E : Type}

lemma contains_iff [DecidableEq E] (q : PriorityQueue E) (e : E) :
    q.contains e = true ↔ ∃ nd ∈ q.minHeap, nd.value = e := by
  simp [contains, List.any_eq_true]

lemma getPriorityLoop_eq [DecidableEq E] (element : E) :
    ∀ (l : List (HeapNode E)) (acc : Int),
      getPriorityLoop element l acc =
        if acc = -1 then specGetPriority l element else acc
  | [], acc => by
    by_cases h : acc = -1
    · rw [if_pos h, h]
      rfl
    · rw [if_neg h]
      rfl
  | nd :: rest, acc => by
    by_cases hv : nd.value = element
    · by_cases ha : acc = -1
      · rw [if_pos ha]
        simp only [getPriorityLoop, if_pos hv, if_pos ha]
        rw [getPriorityLoop_eq element rest nd.priority]
        by_cases hp : nd.priority = -1
        · rw [if_pos hp]
          have hspec : specGetPriority (nd :: rest) element = specGetPriority rest element := by
            unfold specGetPriority
            rw [List.find?_cons_of_neg _ (by simp [hv, hp])]
          rw [hspec]
        · rw [if_neg hp]
          have hspec : specGetPriority (nd :: rest) element = nd.priority := by
            unfold specGetPriority
            rw [List.find?_cons_of_pos _ (by simp [hv, hp])]
          rw [hspec]
      · rw [if_neg ha]
        simp only [getPriorityLoop, if_pos hv, if_neg ha]
        rw [getPriorityLoop_eq element rest acc, if_neg ha]
    · have hspec : specGetPriority (nd :: rest) element = specGetPriority rest element := by
        unfold specGetPriority
        rw [List.find?_cons_of_neg _ (by simp [hv])]
      simp only [getPriorityLoop, if_neg hv]
      rw [getPriorityLoop_eq element rest acc, hspec]

lemma get_priority_eq_spec [DecidableEq E] (q : PriorityQueue E) (e : E) :
    q.get_priority e = specGetPriority q.minHeap e := by
  unfold get_priority
  rw [getPriorityLoop_eq, if_pos rfl]

end PriorityQueue

lemma specGetPriority_of_no_match {E : Type} [DecidableEq E] {l : MinHeap E} {e : E}
    (h : ∀ nd ∈ l, nd.value ≠ e) : specGetPriority l e = -1 := by
  unfold specGetPriority
  rw [List.find?_eq_none.2 (fun nd hnd => by simp [h nd hnd])]

lemma specGetPriority_eq_firstFound {E : Type} [DecidableEq E] (e : E) :
    ∀ (l : MinHeap E), (∀ nd ∈ l, nd.priority ≠ -1) →
      specGetPriority l e = firstFoundPriority l e
  | [], _ => rfl
  | nd :: rest, hall => by
    have hnd : nd.priority ≠ -1 := hall nd (List.mem_cons_self nd rest)
    by_cases hv : nd.value = e
    · unfold specGetPriority firstFoundPriority
      rw [List.find?_cons_of_pos _ (by simp [hv, hnd]), List.find?_cons_of_pos _ (by simp [hv])]
    · have h1 : specGetPriority (nd :: rest) e = specGetPriority rest e := by
        unfold specGetPriority
        rw [List.find?_cons_of_neg _ (by simp [hv])]
      have h2 : firstFoundPriority (nd :: rest) e = firstFoundPriority rest e := by
        unfold firstFoundPriority
        rw [List.find?_cons_of_neg _ (by simp [hv])]
      rw [h1, h2]
      exact specGetPriority_eq_firstFound e rest (fun nd' hnd' => hall nd' (List.mem_cons_of_mem nd hnd'))

lemma specGetPriority_of_all_match_eq {E : Type} [DecidableEq E] :
    ∀ (l : MinHeap E) (v : E) (p : Int),
      0 < l.countP (fun nd => decide (nd.value = v)) →
      (∀ nd ∈ l, nd.value = v → nd.priority = p) →
      specGetPriority l v = p
  | [], v, p, hpos, _ => by simp at hpos
  | nd :: rest, v, p, hpos, hall => by
    by_cases hv : nd.value = v
    · have hpv : nd.priority = p := hall nd (List.mem_cons_self nd rest) hv
      by_cases hp : p = -1
      · have h1 : specGetPriority (nd :: rest) v = specGetPriority rest v := by
          unfold specGetPriority
          rw [List.find?_cons_of_neg _ (by simp [hv, hpv, hp])]
        rw [h1, hp]
        unfold specGetPriority
        rw [List.find?_eq_none.2 (fun nd' hnd' => by
          by_cases hv' : nd'.value = v
          · simp [hall nd' (List.mem_cons_of_mem nd hnd') hv', hp]
          · simp [hv'])]
      · unfold specGetPriority
        rw [List.find?_cons_of_pos _ (by simp [hv, hpv, hp])]
        exact hpv
    · have hc : 0 < rest.countP (fun nd => decide (nd.value = v)) := by
        simp [List.countP_cons, hv] at hpos
        obtain ⟨a, ha, hav⟩ := hpos
        exact List.countP_pos_iff.2 ⟨a, ha, by simp [hav]⟩
      have h1 : specGetPriority (nd :: rest) v = specGetPriority rest v := by
        unfold specGetPriority
        rw [List.find?_cons_of_neg _ (by simp [hv])]
      rw [h1]
      exact specGetPriority_of_all_match_eq rest v p hc
        (fun nd' hnd' => hall nd' (List.mem_cons_of_mem nd hnd'))

section MapValues

variable {E F : Type}

/-- Rename every stored value through `f`, keeping priorities and positions.
None of the operations exercised by the drain scenario inspects values, so a
computation over an arbitrary element type is the value-renamed image of the
same computation over `Nat` labels; the lemmas below prove this transport. -/
def mapNodes (f : E → F) (h : MinHeap E) : MinHeap F :=
  h.map (fun nd => { priority := nd.priority, value := f nd.value })

/-- `mapNodes`, lifted to the façade. -/
def mapQueue (f : E → F) (q : PriorityQueue E) : PriorityQueue F :=
  ⟨mapNodes f q.minHeap⟩

lemma length_mapNodes (f : E → F) (h : MinHeap E) : (mapNodes f h).length = h.length := by
  simp [mapNodes]

lemma getElem?_mapNodes (f : E → F) (h : MinHeap E) (i : Nat) :
    (mapNodes f h)[i]? =
      h[i]?.map (fun nd => { priority := nd.priority, value := f nd.value }) := by
  simp [mapNodes, List.getElem?_map]

lemma getPriority_mapNodes (f : E → F) (h : MinHeap E) (i : Nat) :
    MinHeap.getPriority (mapNodes f h) i = MinHeap.getPriority h i := by
  unfold MinHeap.getPriority
  rw [getElem?_mapNodes]
  cases h[i]? <;> rfl

lemma set_mapNodes (f : E → F) (h : MinHeap E) (i : Nat) (nd : HeapNode E) :
    (mapNodes f h).set i { priority := nd.priority, value := f nd.value } =
      mapNodes f (h.set i nd) := by
  simp [mapNodes, List.map_set]

lemma swap_mapNodes (f : E → F) (h : MinHeap E) (a b : Nat) :
    MinHeap.swap (mapNodes f h) a b = mapNodes f (MinHeap.swap h a b) := by
  cases ha : h[a]? with
  | none =>
    rw [MinHeap.swap_eq_of_left_none (by rw [getElem?_mapNodes, ha]; rfl),
      MinHeap.swap_eq_of_left_none ha]
  | some x =>
    cases hb : h[b]? with
    | none =>
      rw [MinHeap.swap_eq_of_right_none (by rw [getElem?_mapNodes, hb]; rfl),
        MinHeap.swap_eq_of_right_none hb]
    | some y =>
      rw [MinHeap.swap_eq_of_getElem? (by rw [getElem?_mapNodes, ha]; rfl)
        (by rw [getElem?_mapNodes, hb]; rfl), MinHeap.swap_eq_of_getElem? ha hb]
      rw [set_mapNodes f h a y, set_mapNodes f (h.set a y) b x]

lemma heapifyScan_mapNodes (f : E → F) : ∀ (k : Nat) (h : MinHeap E) (sw : Bool),
    MinHeap.heapifyScan k (mapNodes f h) sw =
      (mapNodes f (MinHeap.heapifyScan k h sw).1, (MinHeap.heapifyScan k h sw).2)
  | 0, h, sw => rfl
  | k + 1, h, sw => by
    simp only [MinHeap.heapifyScan]
    rw [getPriority_mapNodes, getPriority_mapNodes, getPriority_mapNodes]
    split
    · rw [swap_mapNodes]
      exact heapifyScan_mapNodes f k _ true
    · split
      · rw [swap_mapNodes]
        exact heapifyScan_mapNodes f k _ true
      · exact heapifyScan_mapNodes f k h sw

lemma offsetSum_mapNodes (f : E → F) : ∀ (h : MinHeap E),
    MinHeap.offsetSum (mapNodes f h) = MinHeap.offsetSum h
  | [] => rfl
  | nd :: t => by
    show MinHeap.offsetSum
      ({ priority := nd.priority, value := f nd.value } :: mapNodes f t) = _
    simp only [MinHeap.offsetSum]
    rw [offsetSum_mapNodes f t]

lemma weightedScoreAux_mapNodes (f : E → F) (o : Nat) : ∀ (h : MinHeap E) (w : Nat),
    MinHeap.weightedScoreAux o (mapNodes f h) w = MinHeap.weightedScoreAux o h w
  | [], w => rfl
  | nd :: t, w => by
    show MinHeap.weightedScoreAux o
      ({ priority := nd.priority, value := f nd.value } :: mapNodes f t) w = _
    simp only [MinHeap.weightedScoreAux]
    rw [weightedScoreAux_mapNodes f o t (w - 1)]

lemma heapMeasure_mapNodes (f : E → F) (h : MinHeap E) :
    MinHeap.heapMeasure (mapNodes f h) = MinHeap.heapMeasure h := by
  unfold MinHeap.heapMeasure MinHeap.weightedScore
  rw [offsetSum_mapNodes, length_mapNodes, weightedScoreAux_mapNodes]

lemma heapifyLoop_mapNodes (f : E → F) : ∀ (fuel : Nat) (h : MinHeap E),
    MinHeap.heapifyLoop fuel (mapNodes f h) = mapNodes f (MinHeap.heapifyLoop fuel h)
  | 0, h => rfl
  | fuel + 1, h => by
    simp only [MinHeap.heapifyLoop]
    rw [length_mapNodes, heapifyScan_mapNodes]
    split
    · exact heapifyLoop_mapNodes f fuel _
    · rfl

lemma heapify_mapNodes (f : E → F) (h : MinHeap E) :
    MinHeap.heapify (mapNodes f h) = mapNodes f (MinHeap.heapify h) := by
  unfold MinHeap.heapify
  rw [heapMeasure_mapNodes, heapifyLoop_mapNodes]

lemma upHeapLoop_mapNodes (f : E → F) : ∀ (fuel : Nat) (h : MinHeap E) (i : Nat),
    MinHeap.upHeapLoop fuel (mapNodes f h) i = mapNodes f (MinHeap.upHeapLoop fuel h i)
  | 0, h, i => rfl
  | fuel + 1, h, i => by
    simp only [MinHeap.upHeapLoop]
    rw [getPriority_mapNodes, getPriority_mapNodes]
    split
    · rw [swap_mapNodes]
      exact upHeapLoop_mapNodes f fuel _ _
    · rfl

lemma upHeap_mapNodes (f : E → F) (h : MinHeap E) :
    MinHeap.upHeap (mapNodes f h) = mapNodes f (MinHeap.upHeap h) := by
  unfold MinHeap.upHeap
  rw [length_mapNodes, upHeapLoop_mapNodes]

lemma insert_mapNodes (f : E → F) (h : MinHeap E) (p : Int) (e : E) :
    MinHeap.insert (mapNodes f h) p (f e) = mapNodes f (MinHeap.insert h p e) := by
  unfold MinHeap.insert
  split
  · rw [show mapNodes f h ++ [({ priority := p, value := f e } : HeapNode F)] =
      mapNodes f (h ++ [{ priority := p, value := e }]) from by simp [mapNodes]]
    rw [upHeap_mapNodes]
  · rfl

lemma insertAll_mapNodes (f : E → F) (h : MinHeap E) (xs : List (Int × E)) :
    MinHeap.insertAll (mapNodes f h) (xs.map (fun pv => (pv.1, f pv.2))) =
      mapNodes f (MinHeap.insertAll h xs) := by
  unfold MinHeap.insertAll
  rw [← heapify_mapNodes]
  congr 1
  simp [mapNodes, List.map_map, Function.comp]

lemma dropLast_mapNodes (f : E → F) (h : MinHeap E) :
    (mapNodes f h).dropLast = mapNodes f h.dropLast := by
  simp only [mapNodes]
  exact (List.map_dropLast _ _).symm

lemma removeFront_mapNodes (f : E → F) (h : MinHeap E) :
    MinHeap.removeFront (mapNodes f h) = mapNodes f (MinHeap.removeFront h) := by
  unfold MinHeap.removeFront
  rw [length_mapNodes, swap_mapNodes, dropLast_mapNodes, heapify_mapNodes]

lemma getMin_mapNodes [Inhabited E] [Inhabited F] (f : E → F) (hf : f default = default)
    (h : MinHeap E) : MinHeap.getMin (mapNodes f h) = f (MinHeap.getMin h) := by
  cases h with
  | nil => simp [mapNodes, MinHeap.getMin, hf]
  | cons nd t => simp [mapNodes, MinHeap.getMin]

lemma empty_mapQueue (f : E → F) (q : PriorityQueue E) :
    (mapQueue f q).empty = q.empty := by
  simp [PriorityQueue.empty, mapQueue, MinHeap.getSize, length_mapNodes]

lemma remove_front_mapQueue [Inhabited E] [Inhabited F] (f : E → F)
    (hf : f default = default) (q : PriorityQueue E) :
    (mapQueue f q).remove_front = (f (q.remove_front).1, mapQueue f (q.remove_front).2) := by
  by_cases hq : q.empty = true
  · unfold PriorityQueue.remove_front
    rw [empty_mapQueue, hq]
    rw [if_neg (by simp), if_neg (by simp)]
    rw [hf]
  · have hq' : q.empty = false := by revert hq; cases q.empty <;> simp
    unfold PriorityQueue.remove_front
    rw [empty_mapQueue, hq']
    rw [if_pos (by simp), if_pos (by simp)]
    show (MinHeap.getMin (mapNodes f q.minHeap),
      (⟨MinHeap.removeFront (mapNodes f q.minHeap)⟩ : PriorityQueue F)) = _
    rw [getMin_mapNodes f hf, removeFront_mapNodes]
    rfl

lemma drain_mapQueue [Inhabited E] [Inhabited F] (f : E → F) (hf : f default = default) :
    ∀ (n : Nat) (q : PriorityQueue E),
      PriorityQueue.drain n (mapQueue f q) = (PriorityQueue.drain n q).map f
  | 0, q => rfl
  | n + 1, q => by
    simp only [PriorityQueue.drain]
    rw [remove_front_mapQueue f hf q]
    show f (q.remove_front).1 :: PriorityQueue.drain n (mapQueue f (q.remove_front).2) = _
    rw [drain_mapQueue f hf n _]
    rfl

lemma insert_mapQueue [DecidableEq E] [DecidableEq F] (f : E → F) (q : PriorityQueue E)
    (p : Int) (e : E) : (mapQueue f q).insert p (f e) = mapQueue f (q.insert p e) := by
  show (⟨MinHeap.insert (mapNodes f q.minHeap) p (f e)⟩ : PriorityQueue F) = _
  rw [insert_mapNodes]
  rfl

lemma insert_all_mapQueue (f : E → F) (q : PriorityQueue E) (xs : List (Int × E)) :
    (mapQueue f q).insert_all (xs.map (fun pv => (pv.1, f pv.2))) =
      mapQueue f (q.insert_all xs) := by
  show (⟨MinHeap.insertAll (mapNodes f q.minHeap) (xs.map (fun pv => (pv.1, f pv.2)))⟩ :
    PriorityQueue F) = _
  rw [insertAll_mapNodes]
  rfl

end MapValues

/-- Value labels 1–5 mapped to five given values; every other label (in
particular the default label 0) goes to `default`.  Used to transport the
drain computation from `Nat` labels to an arbitrary element type. -/
def pick5 {E : Type} [Inhabited E] (v1 v2 v3 v4 v5 : E) : Nat → E := fun n =>
  if n = 1 then v1 else if n = 2 then v2 else if n = 3 then v3 else
  if n = 4 then v4 else if n = 5 then v5 else default

/-- Queue reached from empty by `insert_all [(2,10), (3,20), (1,30)]`. -/
def demoQueueA : PriorityQueue Nat :=
  PriorityQueue.emptyQueue.insert_all [(2, 10), (3, 20), (1, 30)]

/-- Queue reached from empty by three single inserts of priorities 1, 2, 3. -/
def demoQueueB : PriorityQueue Nat :=
  ((PriorityQueue.emptyQueue.insert 1 100).insert 2 200).insert 3 300

/-- Queue reached from empty by `insert_all [(-1,7), (5,7)]` (the bulk path
applies no sign filter, so the negative priority is stored). -/
def demoQueueC : PriorityQueue Nat :=
  PriorityQueue.emptyQueue.insert_all [(-1, 7), (5, 7)]

/-- C1: the claim says that after every insert, insert_all, remove_front or
change_priority call on a reachable queue the stored sequence satisfies the
0-based min-heap invariant (`priorityAt i ≤ priorityAt (2i+1)` and, when it
exists, `≤ priorityAt (2i+2)`).  The code violates it: `heapify` compares
`heap[index]` with `heap[index*2]` and `heap[index*2+1]` — the 1-based child
formula on 0-based indices (it even compares the root with itself) — while
`upHeap`/`getParent` use the correct 0-based convention.  After
`insert_all [(2,10), (3,20), (1,30)]` on an empty queue the stored priorities
are `[2, 3, 1]`: index 0 (priority 2) exceeds its right child at index 2
(priority 1), so the invariant fails on this reachable queue. -/
theorem C1_insert_all_breaks_heap_invariant :
    demoQueueA.get_all_priorities = [2, 3, 1] ∧ ¬ isMinHeap demoQueueA.minHeap := by
  constructor
  · decide
  · decide

/-- C2: the claim says `peek()` on a non-empty reachable queue returns the
value of a node whose priority is the minimum of all stored priorities.  On
the reachable queue `demoQueueA` (priorities `[2,3,1]`, values `[10,20,30]`)
`peek` returns value 10 whose stored priority is 2, yet priority 1 (value 30)
is stored and every stored priority is ≥ 1, so the returned node is not
minimal — a consequence of the `heapify` child-index bug of C1. -/
theorem C2_peek_not_minimum :
    demoQueueA.peek = 10 ∧
    demoQueueA.get_all_elements = [10, 20, 30] ∧
    demoQueueA.get_all_priorities = [2, 3, 1] ∧
    demoQueueA.get_priority 10 = 2 ∧
    demoQueueA.get_priority 30 = 1 ∧
    (∀ x ∈ demoQueueA.get_all_priorities, 1 ≤ x) ∧
    (10 : Nat) ≠ 30 := by decide

/-- C3: the claim says that on a reachable queue storing value 300 ("a") with
priority 3, `change_priority 300 0` makes 300 the next `remove_front` result.
On `demoQueueB` (inserts of priorities 1, 2, 3) the code returns 100 (the
priority-1 node) from the next `remove_front` instead: `heapify`, run by
`changePriority`, never compares the root with its real right child (index 2,
where the 0-priority node sits), so the node never reaches the root. -/
theorem C3_change_priority_not_next_removed :
    demoQueueB.contains 300 = true ∧
    demoQueueB.get_priority 300 = 3 ∧
    ((demoQueueB.change_priority 300 0).remove_front).1 = 100 ∧
    (100 : Nat) ≠ 300 := by decide

/-- C4: five pairwise-distinct values inserted with priorities
`[5, 1, 3, 2, 4]` in that order into an empty queue — either by five `insert`
calls or one `insert_all` call — are returned by five successive
`remove_front` calls in ascending order of priority, i.e. the values carrying
priorities 1, 2, 3, 4, 5 in that order.  (This concrete input happens to
avoid the `heapify` child-index bug exhibited by C1–C3.)  Proved for an
arbitrary element type by transporting the `Nat`-labelled computation through
`mapQueue`. -/
theorem C4_drain_ascending {E : Type} [DecidableEq E] [Inhabited E] (v1 v2 v3 v4 v5 : E)
    (hdist : v1 ≠ v2 ∧ v1 ≠ v3 ∧ v1 ≠ v4 ∧ v1 ≠ v5 ∧ v2 ≠ v3 ∧ v2 ≠ v4 ∧ v2 ≠ v5 ∧
      v3 ≠ v4 ∧ v3 ≠ v5 ∧ v4 ≠ v5) :
    PriorityQueue.drain 5
      (((((PriorityQueue.emptyQueue.insert 5 v1).insert 1 v2).insert 3 v3).insert 2 v4).insert 4 v5)
      = [v2, v4, v3, v5, v1] ∧
    PriorityQueue.drain 5
      (PriorityQueue.emptyQueue.insert_all [(5, v1), (1, v2), (3, v3), (2, v4), (4, v5)])
      = [v2, v4, v3, v5, v1] := by
  have hf : pick5 v1 v2 v3 v4 v5 0 = default := rfl
  constructor
  · have hA : ((((PriorityQueue.emptyQueue.insert 5 v1).insert 1 v2).insert 3 v3).insert 2 v4).insert 4 v5
        = mapQueue (pick5 v1 v2 v3 v4 v5)
            (((((PriorityQueue.emptyQueue.insert 5 1).insert 1 2).insert 3 3).insert 2 4).insert 4 5 :
              PriorityQueue Nat) := by
      rw [← insert_mapQueue, ← insert_mapQueue, ← insert_mapQueue, ← insert_mapQueue,
        ← insert_mapQueue]
      rfl
    rw [hA, drain_mapQueue (pick5 v1 v2 v3 v4 v5) hf]
    rw [show PriorityQueue.drain 5
        (((((PriorityQueue.emptyQueue.insert 5 1).insert 1 2).insert 3 3).insert 2 4).insert 4 5 :
          PriorityQueue Nat) = [2, 4, 3, 5, 1] from by decide]
    rfl
  · have hB : PriorityQueue.emptyQueue.insert_all [(5, v1), (1, v2), (3, v3), (2, v4), (4, v5)]
        = mapQueue (pick5 v1 v2 v3 v4 v5)
            (PriorityQueue.emptyQueue.insert_all [(5, 1), (1, 2), (3, 3), (2, 4), (4, 5)] :
              PriorityQueue Nat) := by
      rw [← insert_all_mapQueue]
      rfl
    rw [hB, drain_mapQueue (pick5 v1 v2 v3 v4 v5) hf]
    rw [show PriorityQueue.drain 5
        (PriorityQueue.emptyQueue.insert_all [(5, 1), (1, 2), (3, 3), (2, 4), (4, 5)] :
          PriorityQueue Nat) = [2, 4, 3, 5, 1] from by decide]
    rfl

/-- Witness for C4 at the concrete values 1–5 over `Nat`. -/
theorem C4_drain_ascending_witness :
    PriorityQueue.drain 5
      (((((PriorityQueue.emptyQueue.insert 5 (1:Nat)).insert 1 2).insert 3 3).insert 2 4).insert 4 5)
      = [2, 4, 3, 5, 1] ∧
    PriorityQueue.drain 5
      (PriorityQueue.emptyQueue.insert_all [(5, (1:Nat)), (1, 2), (3, 3), (2, 4), (4, 5)])
      = [2, 4, 3, 5, 1] :=
  C4_drain_ascending 1 2 3 4 5 (by decide)

/-- C5: inserting with a negative priority is a silent no-op on every queue
state — the state is unchanged, hence `size`, `get_all_elements` and
`get_all_priorities` (the entire stored sequence, order included) are
unchanged, and no error is signalled (the operation returns normally). -/
theorem C5_negative_insert_noop {E : Type} [DecidableEq E] (q : PriorityQueue E)
    (p : Int) (v : E) (hp : p < 0) :
    q.insert p v = q ∧ (q.insert p v).size = q.size ∧
    (q.insert p v).get_all_elements = q.get_all_elements ∧
    (q.insert p v).get_all_priorities = q.get_all_priorities := by
  have h : q.insert p v = q := by
    unfold PriorityQueue.insert
    rw [MinHeap.insert_of_neg _ _ _ hp]
  exact ⟨h, by rw [h], by rw [h], by rw [h]⟩

/-- Witness for C5 on a concrete reachable queue and priority `-3`. -/
theorem C5_negative_insert_noop_witness :
    demoQueueB.insert (-3) 9 = demoQueueB ∧
    (demoQueueB.insert (-3) 9).size = demoQueueB.size ∧
    (demoQueueB.insert (-3) 9).get_all_elements = demoQueueB.get_all_elements ∧
    (demoQueueB.insert (-3) 9).get_all_priorities = demoQueueB.get_all_priorities :=
  C5_negative_insert_noop demoQueueB (-3) 9 (by decide)

/-- C6: `size` grows by exactly 1 on an insert with non-negative priority,
grows by exactly `k` on `insert_all` of `k` pairs (no per-item sign filter on
the bulk path, so this holds with negative priorities in the batch), shrinks
by exactly 1 on `remove_front` of a non-empty queue, and is unchanged by
`change_priority`.  `peek`, `contains` and `get_priority` are embedded as
pure functions of the state — the C++ bodies only read the heap — so they
cannot change `size`. -/
theorem C6_size_changes {E : Type} [DecidableEq E] [Inhabited E] (q : PriorityQueue E)
    (p : Int) (v : E) (xs : List (Int × E)) (e : E) (np : Int) :
    (0 ≤ p → (q.insert p v).size = q.size + 1) ∧
    ((q.insert_all xs).size = q.size + xs.length) ∧
    (q.empty = false → ((q.remove_front).2).size + 1 = q.size) ∧
    ((q.change_priority e np).size = q.size) := by
  refine ⟨fun hp => ?_, ?_, fun he => ?_, ?_⟩
  · simp [PriorityQueue.size, PriorityQueue.insert, MinHeap.getSize,
      MinHeap.length_insert_of_nonneg _ _ _ hp]
  · simp [PriorityQueue.size, PriorityQueue.insert_all, MinHeap.getSize,
      MinHeap.length_insertAll]
  · have hne : q.minHeap.length ≠ 0 := by
      simpa [PriorityQueue.empty, MinHeap.getSize] using he
    simp [PriorityQueue.remove_front, he, PriorityQueue.size, MinHeap.getSize,
      MinHeap.length_removeFront]
    omega
  · simp [PriorityQueue.size, PriorityQueue.change_priority, MinHeap.getSize,
      MinHeap.length_changePriority]

/-- Witness for C6 on a concrete three-element queue, with a bulk insert that
contains a negative priority. -/
theorem C6_size_changes_witness :
    ((demoQueueB.insert 2 5).size = demoQueueB.size + 1) ∧
    ((demoQueueB.insert_all [(-1, 8), (4, 9)]).size = demoQueueB.size + 2) ∧
    (((demoQueueB.remove_front).2).size + 1 = demoQueueB.size) ∧
    ((demoQueueB.change_priority 100 5).size = demoQueueB.size) := by
  have h := C6_size_changes demoQueueB 2 5 [(-1, 8), (4, 9)] 100 5
  exact ⟨h.1 (by decide), h.2.1, h.2.2.1 (by decide), h.2.2.2⟩

/-- C7: on an empty queue, `remove_front` returns the element type's default
value `E()` without signalling an error and leaves the queue unchanged (it
returns the very same state): `size` remains 0 and `empty` remains true. -/
theorem C7_remove_front_empty_default {E : Type} [Inhabited E] (q : PriorityQueue E)
    (hq : q.empty = true) :
    q.remove_front = (default, q) ∧ q.size = 0 ∧
    ((q.remove_front).2).size = 0 ∧ ((q.remove_front).2).empty = true := by
  have hrf : q.remove_front = (default, q) := by
    unfold PriorityQueue.remove_front
    rw [hq, if_neg (by simp)]
  have hs : q.size = 0 := by
    simpa [PriorityQueue.empty, PriorityQueue.size, MinHeap.getSize] using hq
  exact ⟨hrf, hs, by rw [hrf]; exact hs, by rw [hrf]; exact hq⟩

/-- Witness for C7 on the freshly constructed empty queue. -/
theorem C7_remove_front_empty_default_witness :
    (PriorityQueue.emptyQueue : PriorityQueue Nat).remove_front =
      (default, PriorityQueue.emptyQueue) ∧
    (PriorityQueue.emptyQueue : PriorityQueue Nat).size = 0 ∧
    (((PriorityQueue.emptyQueue : PriorityQueue Nat).remove_front).2).size = 0 ∧
    (((PriorityQueue.emptyQueue : PriorityQueue Nat).remove_front).2).empty = true :=
  C7_remove_front_empty_default PriorityQueue.emptyQueue (by decide)

/-- C8 counterexample: the claim says `get_priority v` always returns the
priority of the node at the smallest heap index whose value equals `v`.  On
the reachable queue `demoQueueC` (priorities `[-1, 5]`, both nodes holding
value 7), the first-found priority is `-1`, but the code returns 5: the
`lowest` accumulator starts at `-1`, so a first match whose stored priority
is exactly `-1` fails to mark the value as found and a later match
overwrites it. -/
theorem C8_first_found_counterexample :
    demoQueueC.get_all_elements = [7, 7] ∧
    demoQueueC.get_all_priorities = [-1, 5] ∧
    firstFoundPriority demoQueueC.minHeap 7 = -1 ∧
    demoQueueC.get_priority 7 = 5 ∧
    (5 : Int) ≠ -1 := by decide

/-- C8 amended: `get_priority v` returns the priority of the first-found
node whose value equals `v` and whose stored priority is not `-1`, and `-1`
when there is no such node (in particular when no node matches).  Whenever no
matching node stores priority `-1` — e.g. when all stored priorities are
non-negative — this coincides with the claimed first-found semantics, with
`-1` as the not-found sentinel. -/
theorem C8_get_priority_amended {E : Type} [DecidableEq E] (q : PriorityQueue E) (e : E) :
    q.get_priority e = specGetPriority q.minHeap e ∧
    ((∀ nd ∈ q.minHeap, nd.priority ≠ -1) →
      q.get_priority e = firstFoundPriority q.minHeap e) := by
  refine ⟨PriorityQueue.get_priority_eq_spec q e, fun hall => ?_⟩
  rw [PriorityQueue.get_priority_eq_spec q e]
  exact specGetPriority_eq_firstFound e q.minHeap hall

/-- Witness for the amended C8 on a queue with no `-1` priorities. -/
theorem C8_get_priority_amended_witness :
    demoQueueA.get_priority 10 = specGetPriority demoQueueA.minHeap 10 ∧
    demoQueueA.get_priority 10 = firstFoundPriority demoQueueA.minHeap 10 := by
  have h := C8_get_priority_amended demoQueueA 10
  exact ⟨h.1, h.2 (by decide)⟩

/-- C9: `get_all_elements` and `get_all_priorities` both have length
`size()` and traverse the same internal heap order: at every in-range index
`i` they expose the value and the priority of the same stored node. -/
theorem C9_parallel_sequences {E : Type} (q : PriorityQueue E) :
    q.get_all_elements.length = q.size ∧
    q.get_all_priorities.length = q.size ∧
    ∀ i, i < q.size → ∃ nd, q.minHeap[i]? = some nd ∧
      q.get_all_elements[i]? = some nd.value ∧
      q.get_all_priorities[i]? = some nd.priority := by
  refine ⟨by simp [PriorityQueue.get_all_elements, PriorityQueue.size, MinHeap.getSize],
    by simp [PriorityQueue.get_all_priorities, PriorityQueue.size, MinHeap.getSize], ?_⟩
  intro i hi
  have hi' : i < q.minHeap.length := hi
  obtain ⟨nd, hnd⟩ : ∃ nd, q.minHeap[i]? = some nd := ⟨_, List.getElem?_eq_getElem hi'⟩
  refine ⟨nd, hnd, ?_, ?_⟩
  · simp [PriorityQueue.get_all_elements, List.getElem?_map, hnd]
  · simp [PriorityQueue.get_all_priorities, List.getElem?_map, hnd]

/-- Witness for C9 at index 0 of a concrete three-element queue. -/
theorem C9_parallel_sequences_witness :
    ∃ nd, demoQueueB.minHeap[0]? = some nd ∧
      demoQueueB.get_all_elements[0]? = some nd.value ∧
      demoQueueB.get_all_priorities[0]? = some nd.priority :=
  (C9_parallel_sequences demoQueueB).2.2 0 (by decide)

/-- C10: `change_priority` applies no sign validation.  On any queue state
containing a node with value `v`, `change_priority v p` with `p < 0` takes
the first-found matching index `i` (no earlier index matches), and the
resulting stored sequence is a permutation of the original with that node's
priority overwritten by the negative value `p`; consequently `p` appears in
`get_all_priorities`, the value is still contained, and — when `v` is stored
exactly once — `get_priority v` returns `p`.  At `p = -1` that return value
coincides with the not-found sentinel even though `contains v` stays true. -/
theorem C10_change_priority_negative {E : Type} [DecidableEq E] (q : PriorityQueue E)
    (v : E) (p : Int) (hp : p < 0) (hv : q.contains v = true) :
    ∃ i, i < q.size ∧
      (∀ j nd, j < i → q.minHeap[j]? = some nd → nd.value ≠ v) ∧
      (∃ nd, q.minHeap[i]? = some nd ∧ nd.value = v ∧
        (q.change_priority v p).minHeap.Perm
          (q.minHeap.set i { priority := p, value := nd.value })) ∧
      p ∈ (q.change_priority v p).get_all_priorities ∧
      (q.change_priority v p).contains v = true ∧
      (q.minHeap.countP (fun nd => decide (nd.value = v)) = 1 →
        (q.change_priority v p).get_priority v = p) := by
  obtain ⟨nd₀, hnd₀mem, hnd₀v⟩ := (PriorityQueue.contains_iff q v).1 hv
  rcases MinHeap.findFirstLoop_spec v q.minHeap 0 with ⟨_, hall⟩ |
    ⟨j, hj, heq, ⟨nd, hndj, hndv⟩, hmin⟩
  · exact absurd hnd₀v (hall nd₀ hnd₀mem)
  · have hff : q.minHeap.findFirst v = (j : Int) := by
      unfold MinHeap.findFirst
      rw [heq]
      simp
    have hffne : q.minHeap.findFirst v ≠ -1 := by
      rw [hff]
      omega
    have htn : (q.minHeap.findFirst v).toNat = j := by
      rw [hff]
      simp
    have hcp : (q.change_priority v p).minHeap =
        MinHeap.heapify (q.minHeap.setPriorityAt j p) := by
      show MinHeap.changePriority q.minHeap v p = _
      unfold MinHeap.changePriority
      rw [if_pos hffne, htn]
    have hset : q.minHeap.setPriorityAt j p =
        q.minHeap.set j { priority := p, value := nd.value } := by
      unfold MinHeap.setPriorityAt
      rw [hndj]
    have hperm : (q.change_priority v p).minHeap.Perm
        (q.minHeap.set j { priority := p, value := nd.value }) := by
      rw [hcp, hset]
      exact MinHeap.heapify_perm _
    have hjl : j < q.minHeap.length := hj
    have hmeml : ({ priority := p, value := nd.value } : HeapNode E) ∈
        q.minHeap.set j { priority := p, value := nd.value } :=
      mem_set_self _ j _ hjl
    have hmemres := (hperm.mem_iff).2 hmeml
    refine ⟨j, hjl, (fun j' nd' hj' hj'e => hmin j' nd' hj' hj'e),
      ⟨nd, hndj, hndv, hperm⟩, ?_, ?_, ?_⟩
    · show p ∈ (q.change_priority v p).minHeap.map HeapNode.priority
      exact List.mem_map_of_mem HeapNode.priority hmemres
    · exact (PriorityQueue.contains_iff _ v).2 ⟨_, hmemres, hndv⟩
    · intro hcount
      rw [PriorityQueue.get_priority_eq_spec]
      have hcount' : (q.minHeap.set j { priority := p, value := nd.value }).countP
          (fun x => decide (x.value = v)) = 1 := by
        rw [countP_set_of_same (fun x => decide (x.value = v)) q.minHeap j
          { priority := p, value := nd.value } nd hndj (by simp [hndv])]
        exact hcount
      have hcres : 0 < (q.change_priority v p).minHeap.countP
          (fun x => decide (x.value = v)) := by
        rw [hperm.countP_eq]
        omega
      have hallm : ∀ m ∈ (q.change_priority v p).minHeap, m.value = v → m.priority = p := by
        intro m hm hmv
        have hm' := (hperm.mem_iff).1 hm
        have heqm := countP_one_all_match (fun x => decide (x.value = v)) q.minHeap j
          { priority := p, value := nd.value } nd hndj (by simp [hndv]) (by simp [hndv])
          hcount m hm' (by simp [hmv])
        rw [heqm]
      exact specGetPriority_of_all_match_eq _ v p hcres hallm

/-- Witness for C10 on a single-node queue holding value 7 with priority 3,
re-prioritised to `-2`. -/
theorem C10_change_priority_negative_witness :
    ∃ i, i < (PriorityQueue.emptyQueue.insert 3 (7:Nat)).size ∧
      (∀ j nd, j < i → (PriorityQueue.emptyQueue.insert 3 (7:Nat)).minHeap[j]? = some nd →
        nd.value ≠ 7) ∧
      (∃ nd, (PriorityQueue.emptyQueue.insert 3 (7:Nat)).minHeap[i]? = some nd ∧
        nd.value = 7 ∧
        ((PriorityQueue.emptyQueue.insert 3 (7:Nat)).change_priority 7 (-2)).minHeap.Perm
          ((PriorityQueue.emptyQueue.insert 3 (7:Nat)).minHeap.set i
            { priority := -2, value := nd.value })) ∧
      (-2 : Int) ∈
        ((PriorityQueue.emptyQueue.insert 3 (7:Nat)).change_priority 7 (-2)).get_all_priorities ∧
      ((PriorityQueue.emptyQueue.insert 3 (7:Nat)).change_priority 7 (-2)).contains 7 = true ∧
      ((PriorityQueue.emptyQueue.insert 3 (7:Nat)).minHeap.countP
          (fun nd => decide (nd.value = 7)) = 1 →
        ((PriorityQueue.emptyQueue.insert 3 (7:Nat)).change_priority 7 (-2)).get_priority 7 = -2) :=
  C10_change_priority_negative (PriorityQueue.emptyQueue.insert 3 (7:Nat)) 7 (-2)
    (by decide) (by decide)
